import Mathlib

/-!
Shallow embedding of the evaluator of fcidade/monkey-lang
(`evaluator/evaluator.go`), the tree-walking evaluation core of the Monkey
scripting language, together with theorems checking the specification's
claims about it.

Modelling conventions:
* Go interface values that may be `nil` are modelled as `Option Value`
  (`none` is Go's `nil`); the evaluator returns `nil` for node kinds that
  produce no value (e.g. a `let` statement).
* Host-level runtime panics (nil-pointer dereference, slice index out of
  range, integer division by zero) are modelled by an explicit `fault`
  result, distinct from the language-level `error` Value.
* Machine 64-bit integers are modelled as `Int` reduced by `wrap64`
  (two's-complement wrap-around) where Go arithmetic can overflow; Go's
  `/` on `int64` truncates toward zero, which is `Int.tdiv` (with the Go
  special case `MinInt64 / -1 = MinInt64` recovered by `wrap64`).
* Go's `==` on `object.Object` interface values (pointer identity) is a
  parameter `refEq` of the evaluator; truthiness and the bang operator
  compare only against the interned singletons `TRUE`/`FALSE`/`NULL`,
  where pointer identity coincides with the variant test because
  `boolean`/`NULL` are the sole constructors of Boolean/Null values.
* The environment heap is a `Store`: a list of environment records
  addressed by index; `object.Environment` (not under src/) is modelled
  from the spec, §4.2: `Get` walks the outer chain, `Set` writes the
  local table, `NewEnclosed` appends a fresh record.
* General recursion of the Go evaluator is modelled with a fuel
  parameter; exhausted fuel is the distinguished result `diverge`.
-/

namespace Monkey

mutual
/-- Syntax-tree expressions consumed by the evaluator. The `ast` package is
not under src/ except for Let/Return statements; node shapes follow the
spec's input contract (§6). `HashLiteral` pairs — Modelled from the spec:
`ast.HashLiteral` is not under src/, and §6 specifies "ordered key-expr /
value-expr pairs", so the pairs are an ordered list iterated in order. -/
inductive Expr where
| IntegerLiteral (value : Int)
| BooleanLiteral (value : Bool)
| StringLiteral (value : String)
| Identifier (name : String)
| PrefixExpression (operator : String) (right : Expr)
| InfixExpression (left : Expr) (operator : String) (right : Expr)
| IfExpression (condition : Expr) (consequence : List Stmt)
    (alternative : Option (List Stmt))
| FunctionLiteral (parameters : List String) (body : List Stmt)
| CallExpression (function : Expr) (arguments : List Expr)
| ArrayLiteral (elements : List Expr)
| IndexExpression (left : Expr) (index : Expr)
| HashLiteral (pairs : List (Expr × Expr))

/-- Syntax-tree statements (shapes per spec §6; `ast.LetStatement` and
`ast.ReturnStatement` are under src/ and carry a name/expression and an
expression respectively). -/
inductive Stmt where
| LetStatement (name : String) (value : Expr)
| ReturnStatement (returnValue : Expr)
| ExpressionStatement (expression : Expr)
| BlockStatement (statements : List Stmt)
end

/-- Modelled from the spec: `object.HashKey` (the `object` package is not
under src/). Per §3 a HashKey is a kind tag plus a discriminant: the
integer value, the boolean, or a content hash of the string (the content
hash is modelled by the string content itself, injectively). -/
inductive HashKey where
| intKey (value : Int)
| boolKey (value : Bool)
| strKey (value : String)
deriving DecidableEq, Repr

/-- Runtime values (the `object` package is not under src/; variants per
spec §3, names lower-cased: `object.Integer` ↦ `integer`, etc.).
`array` elements and `hash`/`returnValue` payloads are `Option Value`
because Go stores possibly-nil `object.Object` interface values there.
A `hash` entry is (HashKey, original key Value, mapped value). A `func`
keeps its parameters, body block and captured environment index. The Go
`object.Builtin` variant is omitted: the builtin registry file is not
under src/ and is modelled as empty (spec §4.4 fixes no contents), so no
Builtin value is ever constructed. -/
inductive Value where
| integer (value : Int)
| boolean (value : Bool)
| str (value : String)
| null
| array (elements : List (Option Value))
| hash (pairs : List (HashKey × Value × Option Value))
| func (parameters : List String) (body : List Stmt) (env : Nat)
| returnValue (value : Option Value)
| error (message : String)

/-- The interned singleton `TRUE` (`var TRUE = &object.Boolean{Value: true}`). -/
def TRUE : Value := .boolean true

/-- The interned singleton `FALSE`. -/
def FALSE : Value := .boolean false

/-- The interned singleton `NULL`. -/
def NULL : Value := .null

/-- `Object.Type()` tags (the `object` package is not under src/; the tag
strings appear in the spec's error-message formats, §6). -/
def Value.type : Value → String
| .integer _ => "INTEGER"
| .boolean _ => "BOOLEAN"
| .str _ => "STRING"
| .null => "NULL"
| .array _ => "ARRAY"
| .hash _ => "HASH"
| .func _ _ _ => "FUNCTION"
| .returnValue _ => "RETURN_VALUE"
| .error _ => "ERROR"

/-- `isError`: `obj != nil && obj.Type() == ERROR_OBJ`. -/
def isError : Option Value → Bool
| some (.error _) => true
| _ => false

/-- `isTruthy`: `v != FALSE && v != NULL` — pointer identity against the
interned singletons, which coincides with the variant test; a Go `nil`
interface value is also distinct from both singletons, hence truthy. -/
def isTruthy : Option Value → Bool
| some (.boolean false) => false
| some .null => false
| _ => true

/-- `boolean(bool)`: resolve to the interned singletons. -/
def boolean (b : Bool) : Value := if b then TRUE else FALSE

/-- `integer(int64)`. -/
def integer (number : Int) : Value := .integer number

/-- Two's-complement reduction of an `Int` into the signed 64-bit range,
the host (Go) semantics of `int64` arithmetic overflow. -/
def wrap64 (n : Int) : Int := (n + 2 ^ 63) % 2 ^ 64 - 2 ^ 63

/-- One environment record: `object.Environment` (not under src/),
modelled from the spec §4.2 — a local binding table plus an optional
outer environment (an index into the `Store`). Bindings hold
`Option Value` because Go can bind a name to a `nil` interface value. -/
structure EnvData where
  bindings : List (String × Option Value)
  outer : Option Nat

/-- The heap of environments; an environment is an index into this list. -/
abbrev Store := List EnvData

/-- A fresh root environment (`object.NewEnvironment()`), as heap. -/
def store0 : Store := [⟨[], none⟩]

/-- Overwrite-or-append into a binding table (Go map assignment). -/
def setBinding : List (String × Option Value) → String → Option Value →
    List (String × Option Value)
| [], name, v => [(name, v)]
| (n, w) :: rest, name, v =>
  if n = name then (name, v) :: rest else (n, w) :: setBinding rest name v

/-- `env.Set(name, val)`: writes into the local table of environment `e`
only (spec §4.2); a dangling index leaves the store unchanged
(never reached: the evaluator only uses live indices). -/
def storeSet (st : Store) (e : Nat) (name : String) (v : Option Value) : Store :=
  match st[e]? with
  | none => st
  | some d => st.set e ⟨setBinding d.bindings name v, d.outer⟩

/-- Lookup in one local binding table. -/
def lookupBinding (l : List (String × Option Value)) (name : String) :
    Option (Option Value) :=
  (l.find? (fun p => p.1 == name)).map (fun p => p.2)

/-- `env.Get(name)` with explicit fuel for the outer-chain walk (the chain
built by the evaluator is strictly decreasing in index, so
`st.length + 1` fuel always suffices). `some v` is Go's `(v, true)`. -/
def envGetFuel : Nat → Store → Nat → String → Option (Option Value)
| 0, _, _, _ => none
| fuel + 1, st, e, name =>
  match st[e]? with
  | none => none
  | some d =>
    match lookupBinding d.bindings name with
    | some v => some v
    | none =>
      match d.outer with
      | none => none
      | some o => envGetFuel fuel st o name

/-- `env.Get(name)`: check local bindings, then walk the outer chain. -/
def envGet (st : Store) (e : Nat) (name : String) : Option (Option Value) :=
  envGetFuel (st.length + 1) st e name

/-- Modelled from the spec: the builtin registry (`builtins`, a file of the
`evaluator` package not under src/) is per §4.4 a fixed name-to-function
table whose contents the spec does not fix; it is modelled empty. No
claim depends on a particular builtin. -/
def builtins : String → Option Value := fun _ => none

/-- `evalIdentifier`: environment lookup, then builtin registry, else the
`identifier not found` error value. A name bound to Go `nil` yields `nil`. -/
def evalIdentifier (st : Store) (env : Nat) (name : String) : Option Value :=
  match envGet st env name with
  | some v => v
  | none =>
    match builtins name with
    | some b => some b
    | none => some (.error ("identifier not found: " ++ name))

/-- Result of a pure helper that Go can exit abnormally: a returned
`object.Object` or a host-level runtime panic. -/
inductive PRes where
| val (v : Value)
| fault (message : String)

/-- `evalIntegerInfixExpression`. The two casts `left.(*object.Integer)`
cannot fail at the call site (guarded by type tags); a non-integer
argument is a host fault. Arithmetic is Go `int64`: wrap-around on
overflow, `/` truncates toward zero (`Int.tdiv`), division by zero is a
runtime panic, and `wrap64` makes `MinInt64 / -1 = MinInt64` as the Go
spec defines. -/
def evalIntegerInfixExpression (left : Value) (operator : String) (right : Value) :
    PRes :=
  match left, right with
  | .integer a, .integer b =>
    if operator = "+" then .val (integer (wrap64 (a + b)))
    else if operator = "-" then .val (integer (wrap64 (a - b)))
    else if operator = "*" then .val (integer (wrap64 (a * b)))
    else if operator = "/" then
      if b = 0 then .fault "integer divide by zero"
      else .val (integer (wrap64 (Int.tdiv a b)))
    else if operator = ">" then .val (boolean (decide (a > b)))
    else if operator = "<" then .val (boolean (decide (a < b)))
    else if operator = "==" then .val (boolean (a == b))
    else if operator = "!=" then .val (boolean (a != b))
    else .val (.error ("unknown operator: INTEGER " ++ operator ++ " INTEGER"))
  | _, _ => .fault "interface conversion"

/-- `evalStringInfixExpression`: only `+` (concatenation) is defined. -/
def evalStringInfixExpression (left : Value) (operator : String) (right : Value) :
    PRes :=
  match left, right with
  | .str a, .str b =>
    if operator = "+" then .val (.str (a ++ b))
    else .val (.error ("unknown operator: STRING " ++ operator ++ " STRING"))
  | _, _ => .fault "interface conversion"

/-- `evalInfixExpression`, dispatching in the source's case order: the
type-mismatch check on differing type tags comes FIRST, before the
integer case and before the `==`/`!=` identity cases. `refEq` stands for
Go's interface identity `left == right` (pointer equality). -/
def evalInfixExpression (refEq : Value → Value → Bool) (left : Value)
    (operator : String) (right : Value) : PRes :=
  if left.type ≠ right.type then
    .val (.error ("type mismatch: " ++ left.type ++ " " ++ operator ++ " " ++
      right.type))
  else if left.type = "INTEGER" ∧ right.type = "INTEGER" then
    evalIntegerInfixExpression left operator right
  else if operator = "==" then .val (boolean (refEq left right))
  else if operator = "!=" then .val (boolean (!refEq left right))
  else if left.type = "STRING" ∧ right.type = "STRING" then
    evalStringInfixExpression left operator right
  else
    .val (.error ("unknown operator: " ++ left.type ++ " " ++ operator ++ " " ++
      right.type))

/-- `evalBangOperator`: a `switch` comparing the interface value against
the interned singletons; everything else — including a Go `nil` operand —
falls to the default and is truthy, so `!` yields `FALSE`. -/
def evalBangOperator : Option Value → Value
| some (.boolean true) => FALSE
| some (.boolean false) => TRUE
| some .null => TRUE
| _ => FALSE

/-- `evalMinusOperator`: requires an INTEGER operand; negation wraps
(Go: `-MinInt64 = MinInt64`). -/
def evalMinusOperator (right : Value) : Value :=
  match right with
  | .integer n => .integer (wrap64 (-n))
  | _ => .error ("unknown operator: -" ++ right.type)

/-- `evalPrefixExpression`. The source's default branch spells the message
`unkown operator` (sic). A `nil` operand reaches `right.Type()` in the
minus and default branches (host fault) but not in the bang branch. -/
def evalPrefixExpression (operator : String) (right : Option Value) : PRes :=
  if operator = "!" then .val (evalBangOperator right)
  else if operator = "-" then
    match right with
    | some v => .val (evalMinusOperator v)
    | none => .fault "nil pointer dereference"
  else
    match right with
    | some v => .val (.error ("unkown operator: " ++ operator ++ v.type))
    | none => .fault "nil pointer dereference"

/-- `evalArrayIndexExpression`: guarded casts (host fault if violated,
never reached from `evalIndexExpression`); an index below `0` or above
`len - 1` yields the `NULL` singleton, otherwise the stored element
(`getD` never takes its default: the guard puts `idx.toNat` in bounds). -/
def evalArrayIndexExpression (array index : Value) : Except String (Option Value) :=
  match array, index with
  | .array elements, .integer idx =>
    .ok (if idx < 0 ∨ idx > (elements.length : Int) - 1 then some NULL
         else elements.getD idx.toNat none)
  | _, _ => .error "interface conversion"

/-- `evalIndexExpression`: only ARRAY with INTEGER index is supported; the
error message names only the container's type tag. -/
def evalIndexExpression (left index : Value) : Except String (Option Value) :=
  if left.type = "ARRAY" ∧ index.type = "INTEGER" then
    evalArrayIndexExpression left index
  else
    .ok (some (.error ("index operator not supported: " ++ left.type)))

/-- `key.(object.Hashable)` + `hashKey.HashKey()`: only Integer, Boolean
and String values are hashable (spec §3). -/
def hashKeyOf : Value → Option HashKey
| .integer n => some (.intKey n)
| .boolean b => some (.boolKey b)
| .str s => some (.strKey s)
| _ => none

/-- Go map assignment `pairs[hashed] = HashPair{Key: key, Value: value}`:
overwrite the entry with this HashKey if present, else append. -/
def hashInsert : List (HashKey × Value × Option Value) → HashKey →
    Value × Option Value → List (HashKey × Value × Option Value)
| [], k, p => [(k, p.1, p.2)]
| (k0, q) :: rest, k, p =>
  if k0 = k then (k, p.1, p.2) :: rest else (k0, q) :: hashInsert rest k p

/-- Go map lookup in a `hash` pair list. -/
def hashLookup (l : List (HashKey × Value × Option Value)) (k : HashKey) :
    Option (Value × Option Value) :=
  (l.find? (fun t => t.1 == k)).map (fun t => t.2)

/-- `unwrapReturnValue`: unwrap a `ReturnValue` wrapper, pass anything else
(including Go `nil`) through. -/
def unwrapReturnValue : Option Value → Option Value
| some (.returnValue v) => v
| obj => obj

/-- The parameter-binding loop of `extendedFunctionEnv`:
`for paramIdx, param := range function.Parameters { env.Set(param.Value,
args[paramIdx]) }` — Go slice indexing `args[paramIdx]` panics with
"index out of range" as soon as `paramIdx` reaches `len(args)`, i.e.
whenever there are fewer arguments than parameters; extra arguments are
never touched. (On a fault the partially-mutated heap dies with the
panicking process; the model returns only the fault.) -/
def bindParams (envId : Nat) : List String → List (Option Value) → Store →
    Except String Store
| [], _, st => .ok st
| _ :: _, [], _ => .error "index out of range"
| p :: ps, a :: rest, st => bindParams envId ps rest (storeSet st envId p a)

/-- `extendedFunctionEnv`: a fresh environment enclosed by the function's
captured environment, with parameters bound positionally. -/
def extendedFunctionEnv (fnEnv : Nat) (parameters : List String)
    (args : List (Option Value)) (st : Store) : Except String (Nat × Store) :=
  match bindParams st.length parameters args (st ++ [⟨[], some fnEnv⟩]) with
  | .ok st2 => .ok (st.length, st2)
  | .error m => .error m

/-- Evaluator result: a returned `object.Object` (possibly Go `nil`), a
host-level runtime panic, or exhausted fuel (artifact of the embedding). -/
inductive Out where
| ok (v : Option Value)
| fault (message : String)
| diverge

/-- Lift a pure helper result into an evaluator result. -/
def PRes.toOut : PRes → Out
| .val v => .ok (some v)
| .fault m => .fault m

/-- Lift an index-expression result into an evaluator result. -/
def liftIndex : Except String (Option Value) → Out
| .ok v => .ok v
| .error m => .fault m

/-- Result of `evalExpressions`: the evaluated operand list (on an error,
the singleton list holding just the error value — the Go convention), or
a propagating host fault / exhausted fuel. -/
inductive LOut where
| ok (vs : List (Option Value))
| fault (message : String)
| diverge

/-- The work items of the mutually recursive Go evaluator (`Eval` on
expressions, `Eval` on statements, `evalProgram`, `evalBlockStatement`,
`evalExpressions`, `evalHashLiteral`'s loop, `evalIfExpression`,
`applyFunction`). The mutual recursion is realised as ONE function `run`
over this job type, structurally recursive on fuel, so that concrete
evaluations compute definitionally; each Go function is a thin wrapper
selecting its job. -/
inductive Job where
| expr (e : Expr) (env : Nat)
| stmt (s : Stmt) (env : Nat)
| program (statements : List Stmt) (env : Nat)
| block (statements : List Stmt) (env : Nat)
| exprs (es : List Expr) (env : Nat)
| hashPairs (ps : List (Expr × Expr))
    (acc : List (HashKey × Value × Option Value)) (env : Nat)
| ifJob (condition : Expr) (consequence : List Stmt)
    (alternative : Option (List Stmt)) (env : Nat)
| applyJob (fn : Option Value) (args : List (Option Value))

/-- Result type of each job: `evalExpressions` returns an operand list,
everything else an evaluator result. -/
@[reducible] def JobOut : Job → Type
| .exprs _ _ => LOut
| _ => Out

/-- The out-of-fuel result for each job kind. -/
def divergeFor : (j : Job) → JobOut j
| .expr _ _ => Out.diverge
| .stmt _ _ => Out.diverge
| .program _ _ => Out.diverge
| .block _ _ => Out.diverge
| .exprs _ _ => LOut.diverge
| .hashPairs _ _ _ => Out.diverge
| .ifJob _ _ _ _ => Out.diverge
| .applyJob _ _ => Out.diverge

/-- The evaluator. Each branch transcribes the corresponding Go function
(see the wrappers below for the naming); every recursive call consumes
one unit of fuel. `refEq` is Go's interface identity `==`, reaching only
`evalInfixExpression`. A Go `nil` operand flowing into a `.Type()` call
(`evalInfixExpression`, the index-expression switch, a `nil` callee, the
unusable-hash-key message, `evalBlockStatement`'s result check) is the
modelled host fault. -/
def run (refEq : Value → Value → Bool) :
    Nat → (j : Job) → Store → JobOut j × Store
| 0, j, st => (divergeFor j, st)
| fuel + 1, j, st =>
  match j with
  | .program statements env =>
    -- evalProgram: thread a running last value; unwrap ReturnValue, stop on Error
    match statements with
    | [] => (Out.ok none, st)
    | s :: rest =>
      match run refEq fuel (.stmt s env) st with
      | (.ok (some (.returnValue v)), st1) => (Out.ok v, st1)
      | (.ok (some (.error m)), st1) => (Out.ok (some (.error m)), st1)
      | (.ok last, st1) =>
        match rest with
        | [] => (Out.ok last, st1)
        | _ :: _ => run refEq fuel (.program rest env) st1
      | other => other
  | .block statements env =>
    -- evalBlockStatement: `last.Type()` with NO nil guard → a statement
    -- producing no value (a let) is a nil-pointer host fault
    match statements with
    | [] => (Out.ok none, st)
    | s :: rest =>
      match run refEq fuel (.stmt s env) st with
      | (.ok (some v), st1) =>
        if v.type = "ERROR" ∨ v.type = "RETURN_VALUE" then (Out.ok (some v), st1)
        else
          match rest with
          | [] => (Out.ok (some v), st1)
          | _ :: _ => run refEq fuel (.block rest env) st1
      | (.ok none, st1) => (Out.fault "nil pointer dereference", st1)
      | other => other
  | .stmt s env =>
    match s with
    | .LetStatement name value =>
      match run refEq fuel (.expr value env) st with
      | (.ok v, st1) =>
        if isError v then (Out.ok v, st1)
        else (Out.ok none, storeSet st1 env name v)
      | other => other
    | .ReturnStatement e =>
      match run refEq fuel (.expr e env) st with
      | (.ok v, st1) =>
        if isError v then (Out.ok v, st1)
        else (Out.ok (some (.returnValue v)), st1)
      | other => other
    | .ExpressionStatement e => run refEq fuel (.expr e env) st
    | .BlockStatement statements => run refEq fuel (.block statements env) st
  | .exprs es env =>
    -- evalExpressions: on the first error, the singleton list of that error
    match es with
    | [] => (LOut.ok [], st)
    | e :: rest =>
      match run refEq fuel (.expr e env) st with
      | (.ok v, st1) =>
        if isError v then (LOut.ok [v], st1)
        else
          match run refEq fuel (.exprs rest env) st1 with
          | (.ok vs, st2) => (LOut.ok (v :: vs), st2)
          | other => other
      | (.fault m, st1) => (LOut.fault m, st1)
      | (.diverge, st1) => (LOut.diverge, st1)
  | .ifJob condition consequence alternative env =>
    -- evalIfExpression
    match run refEq fuel (.expr condition env) st with
    | (.ok c, st1) =>
      if isError c then (Out.ok c, st1)
      else if isTruthy c then run refEq fuel (.block consequence env) st1
      else
        match alternative with
        | some alt => run refEq fuel (.block alt env) st1
        | none => (Out.ok (some NULL), st1)
    | other => other
  | .applyJob fn args =>
    -- applyFunction (the Builtin case is omitted: empty modelled registry)
    match fn with
    | some (.func parameters body fnEnv) =>
      match extendedFunctionEnv fnEnv parameters args st with
      | .error m => (Out.fault m, st)
      | .ok (newEnv, st1) =>
        match run refEq fuel (.block body newEnv) st1 with
        | (.ok evaluated, st2) => (Out.ok (unwrapReturnValue evaluated), st2)
        | other => other
    | some other => (Out.ok (some (.error ("not a function: " ++ other.type))), st)
    | none => (Out.fault "nil pointer dereference", st)
  | .hashPairs ps acc env =>
    -- evalHashLiteral's loop over the (spec-ordered) pairs
    match ps with
    | [] => (Out.ok (some (.hash acc)), st)
    | (kExpr, vExpr) :: rest =>
      match run refEq fuel (.expr kExpr env) st with
      | (.ok key, st1) =>
        if isError key then (Out.ok key, st1)
        else
          match key with
          | none => (Out.fault "nil pointer dereference", st1)
          | some kv =>
            match hashKeyOf kv with
            | none =>
              (Out.ok (some (.error ("unusable as hash key: " ++ kv.type))), st1)
            | some hk =>
              match run refEq fuel (.expr vExpr env) st1 with
              | (.ok value, st2) =>
                if isError value then (Out.ok value, st2)
                else run refEq fuel (.hashPairs rest (hashInsert acc hk (kv, value)) env) st2
              | other => other
      | other => other
  | .expr e env =>
    -- Eval on expression nodes
    match e with
    | .IntegerLiteral n => (Out.ok (some (.integer n)), st)
    | .BooleanLiteral b => (Out.ok (some (boolean b)), st)
    | .StringLiteral s => (Out.ok (some (.str s)), st)
    | .Identifier name => (Out.ok (evalIdentifier st env name), st)
    | .PrefixExpression operator r =>
      match run refEq fuel (.expr r env) st with
      | (.ok right, st1) =>
        if isError right then (Out.ok right, st1)
        else ((evalPrefixExpression operator right).toOut, st1)
      | other => other
    | .InfixExpression l operator r =>
      match run refEq fuel (.expr l env) st with
      | (.ok left, st1) =>
        if isError left then (Out.ok left, st1)
        else
          match run refEq fuel (.expr r env) st1 with
          | (.ok right, st2) =>
            if isError right then (Out.ok right, st2)
            else
              match left, right with
              | some lv, some rv =>
                ((evalInfixExpression refEq lv operator rv).toOut, st2)
              | _, _ => (Out.fault "nil pointer dereference", st2)
          | other => other
      | other => other
    | .IfExpression condition consequence alternative =>
      run refEq fuel (.ifJob condition consequence alternative env) st
    | .FunctionLiteral parameters body =>
      (Out.ok (some (.func parameters body env)), st)
    | .CallExpression f arguments =>
      match run refEq fuel (.expr f env) st with
      | (.ok function, st1) =>
        if isError function then (Out.ok function, st1)
        else
          match run refEq fuel (.exprs arguments env) st1 with
          | (.ok args, st2) =>
            match args with
            | [a] =>
              if isError a then (Out.ok a, st2)
              else run refEq fuel (.applyJob function [a]) st2
            | _ => run refEq fuel (.applyJob function args) st2
          | (.fault m, st2) => (Out.fault m, st2)
          | (.diverge, st2) => (Out.diverge, st2)
      | other => other
    | .ArrayLiteral elements =>
      match run refEq fuel (.exprs elements env) st with
      | (.ok elems, st1) =>
        match elems with
        | [a] =>
          if isError a then (Out.ok a, st1) else (Out.ok (some (.array [a])), st1)
        | _ => (Out.ok (some (.array elems)), st1)
      | (.fault m, st1) => (Out.fault m, st1)
      | (.diverge, st1) => (Out.diverge, st1)
    | .IndexExpression l i =>
      match run refEq fuel (.expr l env) st with
      | (.ok left, st1) =>
        if isError left then (Out.ok left, st1)
        else
          match run refEq fuel (.expr i env) st1 with
          | (.ok index, st2) =>
            if isError index then (Out.ok index, st2)
            else
              match left, index with
              | some lv, some iv => (liftIndex (evalIndexExpression lv iv), st2)
              | _, _ => (Out.fault "nil pointer dereference", st2)
          | other => other
      | other => other
    | .HashLiteral pairs => run refEq fuel (.hashPairs pairs [] env) st

/-- `Eval` on expression nodes (wrapper selecting the `.expr` job). -/
def evalExpr (refEq : Value → Value → Bool) (fuel : Nat) (e : Expr)
    (env : Nat) (st : Store) : Out × Store :=
  run refEq fuel (.expr e env) st

/-- `Eval` on statement nodes: `return` wraps its operand (after the error
check) in a `ReturnValue`; `let` binds and produces Go `nil`; an
expression statement passes through; a block dispatches to
`evalBlockStatement`. -/
def evalStmt (refEq : Value → Value → Bool) (fuel : Nat) (s : Stmt)
    (env : Nat) (st : Store) : Out × Store :=
  run refEq fuel (.stmt s env) st

/-- `evalProgram`: run top-level statements in order; a `ReturnValue` is
unwrapped to its inner value, an `Error` stops evaluation; otherwise the
last statement's result (possibly Go `nil`) is the program's result. The
type switch ignores a `nil` result, so trailing `let` statements are
harmless here. -/
def evalProgram (refEq : Value → Value → Bool) (fuel : Nat)
    (statements : List Stmt) (env : Nat) (st : Store) : Out × Store :=
  run refEq fuel (.program statements env) st

/-- `evalBlockStatement`: run the block's statements in order, returning an
ERROR or RETURN_VALUE result as-is (not unwrapped). The check is
`last.Type() == ...` with NO nil guard, so a statement that produces no
value — a `let` — makes Go call `Type()` on a nil interface: host panic. -/
def evalBlock (refEq : Value → Value → Bool) (fuel : Nat)
    (statements : List Stmt) (env : Nat) (st : Store) : Out × Store :=
  run refEq fuel (.block statements env) st

/-- `evalExpressions`: evaluate in order; on the first error, return the
singleton list holding just that error (the Go convention). -/
def evalExpressions (refEq : Value → Value → Bool) (fuel : Nat)
    (es : List Expr) (env : Nat) (st : Store) : LOut × Store :=
  run refEq fuel (.exprs es env) st

/-- `evalIfExpression` (wrapper selecting the `.ifJob` job): truthiness
decides the branch; no alternative and a falsy condition yield `NULL`. -/
def evalIfExpression (refEq : Value → Value → Bool) (fuel : Nat)
    (condition : Expr) (consequence : List Stmt)
    (alternative : Option (List Stmt)) (env : Nat) (st : Store) : Out × Store :=
  run refEq fuel (.ifJob condition consequence alternative env) st

/-- `applyFunction` (wrapper selecting the `.applyJob` job): a Function
value gets a fresh enclosed environment (positional parameter binding; a
short argument list is a host-level index-out-of-range fault inside
`extendedFunctionEnv`), its body is evaluated there and a `ReturnValue`
result is unwrapped. The `Builtin` case is omitted (empty modelled
registry, see `builtins`). Anything else is the `not a function` error
value — where a Go `nil` callee would panic on `fn.Type()`. -/
def applyFunction (refEq : Value → Value → Bool) (fuel : Nat)
    (fn : Option Value) (args : List (Option Value)) (st : Store) : Out × Store :=
  run refEq fuel (.applyJob fn args) st

/-- The loop of `evalHashLiteral` (wrapper selecting the `.hashPairs` job):
evaluate each key (propagating error values; an unhashable key is the
`unusable as hash key` error value, except that a `nil` key panics in Go
when the message formats `key.Type()`), then each value, inserting into
the Go map. -/
def evalHashPairs (refEq : Value → Value → Bool) (fuel : Nat)
    (ps : List (Expr × Expr)) (acc : List (HashKey × Value × Option Value))
    (env : Nat) (st : Store) : Out × Store :=
  run refEq fuel (.hashPairs ps acc env) st

/-- A concrete instantiation of the pointer-identity parameter, used for
closed evaluations whose control flow never reaches the identity
comparison of `evalInfixExpression`. -/
def refEqFalse : Value → Value → Bool := fun _ _ => false

/-- Hypothesis encoding for claims about programs that run to completion
normally: every statement evaluates (same fuel discipline as
`evalProgram`) to a result that is neither an `ErrorSignal` nor a
`ReturnSignal` nor a host fault. -/
def runsClean (refEq : Value → Value → Bool) :
    Nat → List Stmt → Nat → Store → Bool
| 0, _, _, _ => false
| _ + 1, [], _, _ => true
| fuel + 1, s :: rest, env, st =>
  match evalStmt refEq fuel s env st with
  | (.ok none, st1) => runsClean refEq fuel rest env st1
  | (.ok (some v), st1) =>
    v.type != "ERROR" && v.type != "RETURN_VALUE" &&
      runsClean refEq fuel rest env st1
  | _ => false

/-! ## Claim theorems -/

/-- C3 (code bug witness): evaluating the block `{ let a = 5; a }` does NOT
continue past the `let` statement as the spec says — `evalBlockStatement`
checks `last.Type()` without a nil guard, and `Eval` of a let statement
returns Go `nil`, so the block faults with a nil-pointer dereference
right after the let binds `a` (instead of yielding Integer 5). -/
theorem c3_let_in_block_faults :
    evalBlock refEqFalse 9
      [Stmt.LetStatement "a" (Expr.IntegerLiteral 5),
       Stmt.ExpressionStatement (Expr.Identifier "a")] 0 store0 =
      (.fault "nil pointer dereference",
       [⟨[("a", some (Value.integer 5))], none⟩]) := rfl

/-- C9: indexing an Array with a non-Integer index produces the
`index operator not supported: ARRAY` error value — the message names the
container's type tag only; the index's type never appears. -/
theorem c9_index_error_names_container_type (left index : Value)
    (hl : left.type = "ARRAY") (hi : index.type ≠ "INTEGER") :
    evalIndexExpression left index =
      .ok (some (.error "index operator not supported: ARRAY")) := by
  unfold evalIndexExpression
  rw [if_neg (by rintro ⟨-, h2⟩; exact hi h2), hl]
  rfl

/-- Witness for C9 at the claim's own example `[1,2][true]`. -/
theorem c9_witness :
    (Value.array [some (Value.integer 1), some (Value.integer 2)]).type = "ARRAY" ∧
    (Value.boolean true).type ≠ "INTEGER" ∧
    evalIndexExpression
      (Value.array [some (Value.integer 1), some (Value.integer 2)])
      (Value.boolean true) =
      .ok (some (.error "index operator not supported: ARRAY")) :=
  ⟨rfl, by decide, c9_index_error_names_container_type _ _ rfl (by decide)⟩

/-- C5: for an Array of length `n` and an Integer index `i`, indexing
returns the stored element when `0 ≤ i ≤ n-1`, and the `NULL` singleton
(never an error) when `i < 0` or `i ≥ n`. -/
theorem c5_array_index_semantics (elements : List (Option Value)) (i : Int) :
    (∀ (h0 : 0 ≤ i) (hlt : i.toNat < elements.length),
       evalArrayIndexExpression (.array elements) (.integer i) =
         .ok elements[i.toNat]) ∧
    ((i < 0 ∨ (elements.length : Int) ≤ i) →
       evalArrayIndexExpression (.array elements) (.integer i) =
         .ok (some Value.null)) := by
  constructor
  · intro h0 hlt
    simp only [evalArrayIndexExpression]
    rw [if_neg (by omega), List.getD_eq_getElem elements none hlt]
  · intro h
    simp only [evalArrayIndexExpression]
    rw [if_pos (by omega)]
    rfl

/-- Witness for C5: in-range and out-of-range indexing of `[10, 20]`. -/
theorem c5_witness :
    evalArrayIndexExpression
      (.array [some (Value.integer 10), some (Value.integer 20)]) (.integer 1) =
      .ok (some (Value.integer 20)) ∧
    evalArrayIndexExpression
      (.array [some (Value.integer 10), some (Value.integer 20)]) (.integer 5) =
      .ok (some Value.null) := by
  constructor
  · exact (c5_array_index_semantics
      [some (Value.integer 10), some (Value.integer 20)] 1).1 (by decide) (by decide)
  · exact (c5_array_index_semantics
      [some (Value.integer 10), some (Value.integer 20)] 5).2 (Or.inr (by decide))

/-- C8: double bang is the truthiness test: `!!v` is the `TRUE` singleton
exactly when `v` is neither the `FALSE` singleton nor the `NULL`
singleton (so every Integer, including 0, and every String, including "",
double-negate to true) and the `FALSE` singleton otherwise — and the
predicate deciding this is `isTruthy`, the same one `evalIfExpression`
branches on. -/
theorem c8_double_bang_truthiness (v : Value) :
    evalBangOperator (some (evalBangOperator (some v))) =
      (if isTruthy (some v) then TRUE else FALSE) ∧
    (isTruthy (some v) = true ↔ (v ≠ FALSE ∧ v ≠ NULL)) ∧
    evalPrefixExpression "!" (some v) = .val (evalBangOperator (some v)) := by
  refine ⟨?_, ?_, rfl⟩
  · cases v with
    | boolean b => cases b <;> rfl
    | integer n => rfl
    | str s => rfl
    | null => rfl
    | array a => rfl
    | hash h => rfl
    | func p b e => rfl
    | returnValue r => rfl
    | error m => rfl
  · cases v with
    | boolean b => cases b <;> simp [isTruthy, TRUE, FALSE, NULL]
    | integer n => simp [isTruthy, FALSE, NULL]
    | str s => simp [isTruthy, FALSE, NULL]
    | null => simp [isTruthy, FALSE, NULL]
    | array a => simp [isTruthy, FALSE, NULL]
    | hash h => simp [isTruthy, FALSE, NULL]
    | func p b e => simp [isTruthy, FALSE, NULL]
    | returnValue r => simp [isTruthy, FALSE, NULL]
    | error m => simp [isTruthy, FALSE, NULL]

/-- C2 is false on the code: `evalInfixExpression` tests `left.Type() !=
right.Type()` before the `==`/`!=` identity cases, so comparing the
`TRUE` singleton against the `NULL` singleton yields the type-mismatch
ERROR value, not a Boolean — even under an identity relation that calls
them equal. -/
theorem c2_counterexample :
    evalInfixExpression (fun _ _ => true) (Value.boolean true) "==" Value.null =
      .val (.error "type mismatch: BOOLEAN == NULL") ∧
    PRes.val (Value.error "type mismatch: BOOLEAN == NULL") ≠
      .val (boolean true) ∧
    PRes.val (Value.error "type mismatch: BOOLEAN == NULL") ≠
      .val (boolean false) :=
  ⟨rfl, by simp [boolean, TRUE], by simp [boolean, FALSE]⟩

/-- C2 (amended): for `==`/`!=` with operands that are not both Integers,
differing operand types ALWAYS produce the `type mismatch` fault — the
identity rule never applies across kinds; identity comparison (Go pointer
equality, the `refEq` parameter) decides the result only when the two
type tags are equal. -/
theorem c2_amended_identity_equality (refEq : Value → Value → Bool)
    (l r : Value) (op : String) (hop : op = "==" ∨ op = "!=")
    (hint : ¬(l.type = "INTEGER" ∧ r.type = "INTEGER")) :
    (l.type ≠ r.type →
      evalInfixExpression refEq l op r =
        .val (.error ("type mismatch: " ++ l.type ++ " " ++ op ++ " " ++
          r.type))) ∧
    (l.type = r.type →
      evalInfixExpression refEq l op r =
        .val (boolean (if op = "==" then refEq l r else !refEq l r))) := by
  constructor
  · intro hne
    unfold evalInfixExpression
    rw [if_pos hne]
  · intro heq
    unfold evalInfixExpression
    rw [if_neg (by simp [heq]), if_neg hint]
    rcases hop with h | h <;> subst h
    · rw [if_pos rfl]
      simp
    · rw [if_neg (by decide), if_pos rfl]
      simp

/-- Witness for C2 (amended): same-kind String operands compared with
`==` under a concrete identity relation. -/
theorem c2_witness :
    (Value.str "a").type = (Value.str "b").type ∧
    evalInfixExpression refEqFalse (Value.str "a") "==" (Value.str "b") =
      .val (boolean false) := by
  refine ⟨rfl, ?_⟩
  have h := (c2_amended_identity_equality refEqFalse (Value.str "a")
    (Value.str "b") "==" (Or.inl rfl) (by decide)).2 rfl
  simpa [refEqFalse] using h

/-- C4: a `ReturnSignal` produced by a statement of a nested block is the
block's result as-is (not unwrapped); it is unwrapped to its inner value
exactly at the two boundaries: `evalProgram` (so a top-level `return`
yields the operand's plain value) and `applyFunction` (via
`unwrapReturnValue` on the body's result). -/
theorem c4_return_signal_propagation :
    (∀ (refEq : Value → Value → Bool) (fuel : Nat) (s : Stmt)
       (rest : List Stmt) (env : Nat) (st st1 : Store) (v : Option Value),
       evalStmt refEq fuel s env st = (.ok (some (.returnValue v)), st1) →
       evalBlock refEq (fuel + 1) (s :: rest) env st =
         (.ok (some (.returnValue v)), st1)) ∧
    (∀ (refEq : Value → Value → Bool) (fuel : Nat) (s : Stmt)
       (rest : List Stmt) (env : Nat) (st st1 : Store) (v : Option Value),
       evalStmt refEq fuel s env st = (.ok (some (.returnValue v)), st1) →
       evalProgram refEq (fuel + 1) (s :: rest) env st = (.ok v, st1)) ∧
    (∀ (refEq : Value → Value → Bool) (fuel : Nat) (parameters : List String)
       (body : List Stmt) (fnEnv newEnv : Nat) (args : List (Option Value))
       (st st1 st2 : Store) (v : Option Value),
       extendedFunctionEnv fnEnv parameters args st = .ok (newEnv, st1) →
       evalBlock refEq fuel body newEnv st1 =
         (.ok (some (.returnValue v)), st2) →
       applyFunction refEq (fuel + 1) (some (.func parameters body fnEnv))
         args st = (.ok v, st2)) := by
  refine ⟨?_, ?_, ?_⟩
  · intro refEq fuel s rest env st st1 v h
    simp only [evalStmt] at h
    simp only [evalBlock, run, h]
    simp [Value.type]
  · intro refEq fuel s rest env st st1 v h
    simp only [evalStmt] at h
    simp only [evalProgram, run, h]
  · intro refEq fuel parameters body fnEnv newEnv args st st1 st2 v hext hbody
    simp only [evalBlock] at hbody
    simp only [applyFunction, run, hext, hbody, unwrapReturnValue]

/-- Witness for C4: `return 7; 1;` at top level yields plain Integer 7. -/
theorem c4_witness :
    evalStmt refEqFalse 5 (Stmt.ReturnStatement (Expr.IntegerLiteral 7)) 0
      store0 = (.ok (some (.returnValue (some (Value.integer 7)))), store0) ∧
    evalProgram refEqFalse 6
      [Stmt.ReturnStatement (Expr.IntegerLiteral 7),
       Stmt.ExpressionStatement (Expr.IntegerLiteral 1)] 0 store0 =
      (.ok (some (Value.integer 7)), store0) :=
  ⟨rfl, c4_return_signal_propagation.2.1 refEqFalse 5 _ _ _ _ _ _ rfl⟩

/-- The binding loop faults exactly when the arguments run out before the
parameters do. -/
theorem bindParams_short (envId : Nat) :
    ∀ (parameters : List String) (args : List (Option Value)) (st : Store),
      args.length < parameters.length →
      bindParams envId parameters args st = .error "index out of range" := by
  intro parameters
  induction parameters with
  | nil => intro args st h; simp at h
  | cons p ps ih =>
    intro args st h
    cases args with
    | nil => rfl
    | cons a rest =>
      simp only [bindParams]
      exact ih rest _ (by simpa using h)

/-- With enough arguments the binding loop finishes normally. -/
theorem bindParams_ok (envId : Nat) :
    ∀ (parameters : List String) (args : List (Option Value)) (st : Store),
      parameters.length ≤ args.length →
      ∃ st2, bindParams envId parameters args st = .ok st2 := by
  intro parameters
  induction parameters with
  | nil => intro args st _; exact ⟨st, rfl⟩
  | cons p ps ih =>
    intro args st h
    cases args with
    | nil => simp at h
    | cons a rest =>
      simp only [bindParams]
      exact ih rest _ (by simpa using h)

/-- C1 is false on the code: calling a two-parameter function with one
argument makes the call operation itself fail — `extendedFunctionEnv`
indexes `args[paramIdx]` out of range (a host-level panic), so the later
parameter is never "silently left unbound". -/
theorem c1_counterexample :
    applyFunction refEqFalse 9
      (some (.func ["x", "y"] [Stmt.ExpressionStatement (Expr.Identifier "x")] 0))
      [some (Value.integer 1)] store0 = (.fault "index out of range", store0) :=
  rfl

/-- C1 (amended): argument count is indeed never validated, but the two
directions are asymmetric — with at least as many arguments as
parameters the call environment is built fine (extra arguments are
ignored), while FEWER arguments than parameters make the call itself
fail with a host-level index-out-of-range fault inside
`extendedFunctionEnv`; there is no silent unbound parameter. -/
theorem c1_amended_argument_count (fnEnv : Nat) (parameters : List String)
    (args : List (Option Value)) (st : Store) :
    (parameters.length ≤ args.length →
      ∃ p, extendedFunctionEnv fnEnv parameters args st = .ok p) ∧
    (∀ (refEq : Value → Value → Bool) (fuel : Nat) (body : List Stmt),
      args.length < parameters.length →
      applyFunction refEq (fuel + 1) (some (.func parameters body fnEnv))
        args st = (.fault "index out of range", st)) := by
  constructor
  · intro h
    obtain ⟨st2, h2⟩ :=
      bindParams_ok st.length parameters args (st ++ [⟨[], some fnEnv⟩]) h
    exact ⟨(st.length, st2), by simp [extendedFunctionEnv, h2]⟩
  · intro refEq fuel body h
    have h2 := bindParams_short st.length parameters args
      (st ++ [⟨[], some fnEnv⟩]) h
    simp [applyFunction, run, extendedFunctionEnv, h2]

/-- Witness for C1 (amended): one parameter with two arguments binds fine;
two parameters with no arguments fault at the call. -/
theorem c1_witness :
    ((["x"] : List String).length ≤
       ([some (Value.integer 1), some (Value.integer 2)] :
         List (Option Value)).length ∧
     ∃ p, extendedFunctionEnv 0 ["x"]
       [some (Value.integer 1), some (Value.integer 2)] store0 = .ok p) ∧
    (([] : List (Option Value)).length < (["a", "b"] : List String).length ∧
     applyFunction refEqFalse 3 (some (.func ["a", "b"] [] 0)) [] store0 =
       (.fault "index out of range", store0)) := by
  refine ⟨⟨by decide, (c1_amended_argument_count 0 ["x"] _ store0).1 (by decide)⟩,
    ⟨by decide, ?_⟩⟩
  exact (c1_amended_argument_count 0 ["a", "b"] [] store0).2 refEqFalse 2 []
    (by decide)

/-- `wrap64` is the identity on the signed 64-bit range. -/
theorem wrap64_eq_self (n : Int) (h1 : -(2 ^ 63) ≤ n) (h2 : n < 2 ^ 63) :
    wrap64 n = n := by
  have e63 : (2 : Int) ^ 63 = 9223372036854775808 := by norm_num
  have e64 : (2 : Int) ^ 64 = 18446744073709551616 := by norm_num
  unfold wrap64
  rw [e63, e64]
  rw [e63] at h1 h2
  omega

/-- Truncating division of in-range `int64` operands stays in range except
at `MinInt64 / -1`. -/
theorem tdiv_in_int64_range (a b : Int)
    (ha1 : -(2 ^ 63) ≤ a) (ha2 : a < 2 ^ 63) (hb : b ≠ 0)
    (hex : ¬(a = -(2 ^ 63) ∧ b = -1)) :
    -(2 ^ 63) ≤ a.tdiv b ∧ a.tdiv b < 2 ^ 63 := by
  have e63 : (2 : Int) ^ 63 = 9223372036854775808 := by norm_num
  rw [e63] at ha1 ha2 ⊢
  have habs := Int.natAbs_tdiv a b
  rcases Nat.lt_or_ge b.natAbs 2 with hb2 | hb2
  · have hb1 : b = 1 ∨ b = -1 := by omega
    rcases hb1 with rfl | rfl
    · rw [Int.tdiv_one]; omega
    · have hne : a ≠ -9223372036854775808 := by
        intro hh
        exact hex ⟨by rw [hh, e63], rfl⟩
      have hdiv : a.tdiv (-1) = -a := by
        have h := Int.tdiv_neg a 1
        simpa [Int.tdiv_one] using h
      rw [hdiv]; omega
  · have hq : (a.tdiv b).natAbs ≤ a.natAbs / 2 := by
      rw [habs]
      exact Nat.div_le_div_left hb2 (by norm_num)
    omega

/-- C6 is false on the code at one input: `MinInt64 / -1` does not yield the
truncated quotient `2^63` (which does not exist in `int64`) — Go defines
it to wrap back to `MinInt64`. -/
theorem c6_counterexample :
    evalIntegerInfixExpression (.integer (-(2 ^ 63))) "/" (.integer (-1)) =
      .val (integer (-(2 ^ 63))) ∧
    Int.tdiv (-(2 ^ 63)) (-1) = 2 ^ 63 ∧
    ((-(2 ^ 63) : Int) ≠ 2 ^ 63) :=
  ⟨rfl, by decide, by decide⟩

/-- C6 (amended): for in-range `int64` operands, `+`, `-`, `*` yield the
host (wrap-around) arithmetic result; for `b ≠ 0` the quotient truncates
toward zero except at `MinInt64 / -1`, which wraps to `MinInt64`; and
division by zero is a host-level fault, never an ErrorSignal value. -/
theorem c6_integer_arithmetic (a b : Int)
    (ha : -(2 ^ 63) ≤ a ∧ a < 2 ^ 63) (hb : -(2 ^ 63) ≤ b ∧ b < 2 ^ 63) :
    evalIntegerInfixExpression (.integer a) "+" (.integer b) =
      .val (integer (wrap64 (a + b))) ∧
    evalIntegerInfixExpression (.integer a) "-" (.integer b) =
      .val (integer (wrap64 (a - b))) ∧
    evalIntegerInfixExpression (.integer a) "*" (.integer b) =
      .val (integer (wrap64 (a * b))) ∧
    (b ≠ 0 → ¬(a = -(2 ^ 63) ∧ b = -1) →
      evalIntegerInfixExpression (.integer a) "/" (.integer b) =
        .val (integer (Int.tdiv a b))) ∧
    (a = -(2 ^ 63) → b = -1 →
      evalIntegerInfixExpression (.integer a) "/" (.integer b) =
        .val (integer (-(2 ^ 63)))) ∧
    evalIntegerInfixExpression (.integer a) "/" (.integer 0) =
      .fault "integer divide by zero" := by
  refine ⟨rfl, rfl, rfl, ?_, ?_, rfl⟩
  · intro hb0 hex
    have hr := tdiv_in_int64_range a b ha.1 ha.2 hb0 hex
    simp only [evalIntegerInfixExpression]
    rw [if_neg (by decide : ¬("/" : String) = "+"),
      if_neg (by decide : ¬("/" : String) = "-"),
      if_neg (by decide : ¬("/" : String) = "*"), if_pos trivial,
      if_neg hb0, wrap64_eq_self _ hr.1 hr.2]
  · intro h1 h2
    subst h1; subst h2
    rfl

/-- Witness for C6: `7 + 2 = 9`, `7 / -2 = -3` (truncation toward zero),
and `7 / 0` is the host fault. -/
theorem c6_witness :
    evalIntegerInfixExpression (.integer 7) "+" (.integer 2) =
      .val (integer 9) ∧
    evalIntegerInfixExpression (.integer 7) "/" (.integer (-2)) =
      .val (integer (-3)) ∧
    evalIntegerInfixExpression (.integer 7) "/" (.integer 0) =
      .fault "integer divide by zero" := by
  have h1 := c6_integer_arithmetic 7 2 (by norm_num) (by norm_num)
  have h2 := c6_integer_arithmetic 7 (-2) (by norm_num) (by norm_num)
  refine ⟨?_, ?_, h1.2.2.2.2.2⟩
  · have := h1.1
    rwa [show wrap64 (7 + 2) = 9 by decide] at this
  · have := h2.2.2.2.1 (by norm_num) (by norm_num)
    rwa [show Int.tdiv 7 (-2) = -3 by decide] at this

/-- Inserting under a key makes that key map to the inserted pair. -/
theorem hashLookup_insert_self (l : List (HashKey × Value × Option Value))
    (k : HashKey) (p : Value × Option Value) :
    hashLookup (hashInsert l k p) k = some p := by
  induction l with
  | nil => simp [hashInsert, hashLookup]
  | cons t rest ih =>
    obtain ⟨k0, q⟩ := t
    by_cases h : k0 = k
    · subst h
      simp [hashInsert, hashLookup]
    · simp only [hashInsert, if_neg h]
      simpa [hashLookup, h] using ih

/-- Inserting under a key leaves every other key's mapping unchanged. -/
theorem hashLookup_insert_ne (l : List (HashKey × Value × Option Value))
    (k k2 : HashKey) (p : Value × Option Value) (hne : k2 ≠ k) :
    hashLookup (hashInsert l k p) k2 = hashLookup l k2 := by
  induction l with
  | nil => simp [hashInsert, hashLookup, Ne.symm hne]
  | cons t rest ih =>
    obtain ⟨k0, q⟩ := t
    by_cases h : k0 = k
    · subst h
      simp [hashInsert, hashLookup, Ne.symm hne]
    · by_cases h2 : k0 = k2
      · subst h2
        simp [hashInsert, if_neg h, hashLookup]
      · simp only [hashInsert, if_neg h]
        simpa [hashLookup, h2] using ih

/-- The keys after an insert are the old keys plus the inserted key. -/
theorem hashInsert_mem_keys (l : List (HashKey × Value × Option Value))
    (k : HashKey) (p : Value × Option Value) (x : HashKey) :
    x ∈ (hashInsert l k p).map (fun t => t.1) ↔
      x ∈ l.map (fun t => t.1) ∨ x = k := by
  induction l with
  | nil => simp [hashInsert]
  | cons t rest ih =>
    obtain ⟨k0, q⟩ := t
    by_cases h : k0 = k
    · subst h
      simp [hashInsert]
      tauto
    · simp only [hashInsert, if_neg h, List.map_cons, List.mem_cons, ih]
      tauto

/-- Inserting preserves key uniqueness. -/
theorem hashInsert_nodup (l : List (HashKey × Value × Option Value))
    (k : HashKey) (p : Value × Option Value)
    (h : (l.map (fun t => t.1)).Nodup) :
    ((hashInsert l k p).map (fun t => t.1)).Nodup := by
  induction l with
  | nil => simp [hashInsert]
  | cons t rest ih =>
    obtain ⟨k0, q⟩ := t
    simp only [List.map_cons, List.nodup_cons] at h
    by_cases hk : k0 = k
    · subst hk
      simpa [hashInsert, List.nodup_cons] using h
    · simp only [hashInsert, if_neg hk, List.map_cons, List.nodup_cons]
      refine ⟨?_, ih h.2⟩
      rw [hashInsert_mem_keys]
      rintro (hx | hx)
      · exact h.1 hx
      · exact hk hx

/-- Looking up a key after folding Go-map inserts over a triple list finds
the LAST inserted pair for that key (or falls back to the accumulator). -/
theorem hashFold_lookup (l : List (HashKey × Value × Option Value)) :
    ∀ (acc : List (HashKey × Value × Option Value)) (k : HashKey),
      hashLookup (l.foldl (fun m t => hashInsert m t.1 t.2) acc) k =
        match l.reverse.find? (fun t => t.1 == k) with
        | some u => some u.2
        | none => hashLookup acc k := by
  induction l with
  | nil => intro acc k; rfl
  | cons t ts ih =>
    intro acc k
    rw [List.foldl_cons, ih, List.reverse_cons, List.find?_append]
    rcases hf : ts.reverse.find? (fun t => t.1 == k) with - | u
    · simp only [hf, Option.none_or]
      by_cases hk : t.1 = k
      · simp [List.find?, beq_iff_eq, hk, hashLookup_insert_self]
      · have hb : (t.1 == k) = false := beq_eq_false_iff_ne.mpr hk
        simp [List.find?, hb, hashLookup_insert_ne _ _ _ _ (Ne.symm hk)]
    · simp [hf]

/-- Folding inserts from the empty map yields a map with pairwise-distinct
keys. -/
theorem hashFold_nodup (l : List (HashKey × Value × Option Value)) :
    ∀ (acc : List (HashKey × Value × Option Value)),
      (acc.map (fun t => t.1)).Nodup →
      ((l.foldl (fun m t => hashInsert m t.1 t.2) acc).map
        (fun t => t.1)).Nodup := by
  induction l with
  | nil => intro acc h; simpa using h
  | cons t ts ih =>
    intro acc h
    rw [List.foldl_cons]
    exact ih _ (hashInsert_nodup _ _ _ h)

/-- A successfully evaluated hash literal is some sequence of Go-map
inserts over the starting accumulator (the evaluated key/value triples,
in pair order). -/
theorem evalHashPairs_builds_fold (refEq : Value → Value → Bool) :
    ∀ (ps : List (Expr × Expr)) (fuel : Nat)
      (acc : List (HashKey × Value × Option Value)) (env : Nat) (st : Store)
      (res : List (HashKey × Value × Option Value)) (st2 : Store),
      evalHashPairs refEq fuel ps acc env st = (.ok (some (.hash res)), st2) →
      ∃ triples : List (HashKey × Value × Option Value),
        res = triples.foldl (fun m t => hashInsert m t.1 t.2) acc := by
  intro ps
  induction ps with
  | nil =>
    intro fuel acc env st res st2 h
    cases fuel with
    | zero => simp [evalHashPairs, run, divergeFor] at h
    | succ fuel =>
      refine ⟨[], ?_⟩
      simp only [List.foldl_nil]
      simp only [evalHashPairs, run, Prod.mk.injEq] at h
      obtain ⟨h1, -⟩ := h
      injection h1 with h1
      injection h1 with h1
      injection h1 with h1
      exact h1.symm
  | cons p rest ih =>
    intro fuel acc env st res st2 h
    cases fuel with
    | zero => simp [evalHashPairs, run, divergeFor] at h
    | succ fuel =>
      obtain ⟨kExpr, vExpr⟩ := p
      simp only [evalHashPairs, run] at h
      split at h
      · rename_i pair key st1 heq
        split at h
        · rename_i hcond
          injection h with h1 h2
          injection h1 with h1
          subst h1
          simp [isError] at hcond
        · split at h
          · injection h with h1 h2
            exact Out.noConfusion h1
          · rename_i key0 kv
            split at h
            · injection h with h1 h2
              injection h1 with h1
              injection h1 with h1
              exact Value.noConfusion h1
            · rename_i hk0 hk hhk
              split at h
              · rename_i pair2 value st2x heq2
                split at h
                · rename_i hcond2
                  injection h with h1 h2
                  injection h1 with h1
                  subst h1
                  simp [isError] at hcond2
                · obtain ⟨ts, hts⟩ := ih fuel (hashInsert acc hk (key0, value))
                    env st2x res st2 h
                  exact ⟨(hk, key0, value) :: ts, by simpa using hts⟩
              · rename_i pair2 hno2
                exact absurd h (hno2 _ _)
      · rename_i pair hno
        exact absurd h (hno _ _)

/-- C7: a hash literal is evaluated by folding Go-map inserts over the
evaluated key/value triples in pair order, and under that fold each
HashKey owns AT MOST ONE pair, whose content is the LAST (latest-written)
occurrence of that key; in particular the claim's own example
`{"a": 1, "a": 2}` evaluates to exactly the single pair `"a" -> 2` (with
the key Value retained beside the mapped value). -/
theorem c7_hash_literal_last_write_wins :
    (∀ (refEq : Value → Value → Bool) (fuel : Nat) (ps : List (Expr × Expr))
       (env : Nat) (st : Store) (res : List (HashKey × Value × Option Value))
       (st2 : Store),
       evalHashPairs refEq fuel ps [] env st = (.ok (some (.hash res)), st2) →
       ∃ triples : List (HashKey × Value × Option Value),
         res = triples.foldl (fun m t => hashInsert m t.1 t.2) []) ∧
    (∀ (triples : List (HashKey × Value × Option Value)) (k : HashKey),
       hashLookup (triples.foldl (fun m t => hashInsert m t.1 t.2) []) k =
         (triples.reverse.find? (fun t => t.1 == k)).map (fun t => t.2) ∧
       (triples.foldl (fun m t => hashInsert m t.1 t.2) []).countP
         (fun t => t.1 == k) ≤ 1) ∧
    evalExpr refEqFalse 9
      (Expr.HashLiteral [(Expr.StringLiteral "a", Expr.IntegerLiteral 1),
        (Expr.StringLiteral "a", Expr.IntegerLiteral 2)]) 0 store0 =
      (.ok (some (.hash [(.strKey "a", .str "a", some (Value.integer 2))])),
        store0) := by
  refine ⟨fun refEq fuel ps env st res st2 h =>
      evalHashPairs_builds_fold refEq ps fuel [] env st res st2 h, ?_, rfl⟩
  intro triples k
  constructor
  · rw [hashFold_lookup]
    rcases hf : triples.reverse.find? (fun t => t.1 == k) with - | u <;>
      simp [hf, hashLookup]
  · have hnd := hashFold_nodup triples [] (by simp)
    have hcount := List.nodup_iff_count_le_one.mp hnd k
    have heq : (triples.foldl (fun m t => hashInsert m t.1 t.2) []).countP
        (fun t => t.1 == k) =
        ((triples.foldl (fun m t => hashInsert m t.1 t.2) []).map
          (fun t => t.1)).count k :=
      (List.countP_map (fun x => x == k)
        (fun t : HashKey × Value × Option Value => t.1) _).symm
    rw [heq]
    exact hcount

/-- Witness for C7: the claim's own duplicate-key literal produces a map
that is indeed a fold of inserts (applied through the theorem at the
concrete evaluation result). -/
theorem c7_witness :
    ∃ triples : List (HashKey × Value × Option Value),
      [((.strKey "a" : HashKey), Value.str "a", some (Value.integer 2))] =
        triples.foldl (fun m t => hashInsert m t.1 t.2) [] :=
  c7_hash_literal_last_write_wins.1 refEqFalse 9
    [(Expr.StringLiteral "a", Expr.IntegerLiteral 1),
     (Expr.StringLiteral "a", Expr.IntegerLiteral 2)] 0 store0 _ store0 rfl

/-- A `let` statement that completes normally produces Go `nil` (or
propagates an error value); it never produces a plain value. -/
theorem evalStmt_let_result (refEq : Value → Value → Bool) (fuel : Nat)
    (name : String) (e : Expr) (env : Nat) (st : Store) (w : Option Value)
    (st1 : Store)
    (h : evalStmt refEq fuel (.LetStatement name e) env st = (.ok w, st1)) :
    w = none ∨ isError w = true := by
  cases fuel with
  | zero => simp [evalStmt, run, divergeFor] at h
  | succ fuel =>
    simp only [evalStmt, run] at h
    split at h
    · rename_i pair v st2 heq
      split at h
      · rename_i hcond
        injection h with h1 h2
        injection h1 with h1
        subst h1
        exact Or.inr hcond
      · injection h with h1 h2
        injection h1 with h1
        exact Or.inl h1.symm
    · rename_i pair hno
      exact absurd h (hno _ _)

/-- If a program runs to completion with no statement producing an
ErrorSignal or ReturnSignal, and its final statement is a `let`, the
program's overall result is Go `nil` (no value). -/
theorem trailing_let_gives_nil (refEq : Value → Value → Bool) :
    ∀ (stmts : List Stmt) (fuel : Nat) (env : Nat) (st : Store)
      (name : String) (e : Expr),
      stmts.getLast? = some (.LetStatement name e) →
      runsClean refEq fuel stmts env st = true →
      (evalProgram refEq fuel stmts env st).1 = .ok none := by
  intro stmts
  induction stmts with
  | nil => intro fuel env st name e hlast hclean; simp at hlast
  | cons s rest ih =>
    intro fuel env st name e hlast hclean
    cases fuel with
    | zero => simp [runsClean] at hclean
    | succ fuel =>
      simp only [runsClean] at hclean
      rcases hs : evalStmt refEq fuel s env st with ⟨o, st1⟩
      have hs2 : run refEq fuel (.stmt s env) st = (o, st1) := hs
      rw [hs] at hclean
      simp only [evalProgram, run, hs2]
      cases o with
      | fault m => simp at hclean
      | diverge => simp at hclean
      | ok w =>
        cases w with
        | none =>
          simp only [] at hclean
          cases rest with
          | nil => rfl
          | cons r rest2 =>
            exact ih fuel env st1 name e
              (by rwa [List.getLast?_cons_cons] at hlast) hclean
        | some v =>
          simp only [Bool.and_eq_true, bne_iff_ne, ne_eq] at hclean
          obtain ⟨⟨h1, h2⟩, h3⟩ := hclean
          cases v
          case returnValue r => exact absurd rfl h2
          case error m => exact absurd rfl h1
          all_goals
            cases rest with
            | nil =>
              simp only [List.getLast?_singleton, Option.some.injEq] at hlast
              subst hlast
              rcases evalStmt_let_result refEq fuel name e env st _ _ hs
                with hx | hx
              · exact Option.noConfusion hx
              · simp [isError] at hx
            | cons r rest2 =>
              exact ih fuel env st1 name e
                (by rwa [List.getLast?_cons_cons] at hlast) h3

/-- C10: a program whose statements all evaluate without ErrorSignal or
ReturnSignal and whose final statement is a `let` yields, at top level,
the host-level absence of a value (Go `nil`, `Out.ok none`) — which is a
different thing from the `NULL` singleton value. -/
theorem c10_trailing_let_yields_go_nil (refEq : Value → Value → Bool)
    (fuel : Nat) (stmts : List Stmt) (env : Nat) (st : Store)
    (name : String) (e : Expr)
    (hlast : stmts.getLast? = some (.LetStatement name e))
    (hclean : runsClean refEq fuel stmts env st = true) :
    (evalProgram refEq fuel stmts env st).1 = .ok none ∧
    (Out.ok (none : Option Value) ≠ .ok (some Value.null)) :=
  ⟨trailing_let_gives_nil refEq stmts fuel env st name e hlast hclean, by simp⟩

/-- Witness for C10: the one-statement program `let a = 5;`. -/
theorem c10_witness :
    ([Stmt.LetStatement "a" (Expr.IntegerLiteral 5)].getLast? =
       some (Stmt.LetStatement "a" (Expr.IntegerLiteral 5))) ∧
    runsClean refEqFalse 3 [Stmt.LetStatement "a" (Expr.IntegerLiteral 5)] 0
      store0 = true ∧
    (evalProgram refEqFalse 3 [Stmt.LetStatement "a" (Expr.IntegerLiteral 5)]
      0 store0).1 = .ok none :=
  ⟨rfl, rfl,
    (c10_trailing_let_yields_go_nil refEqFalse 3
      [Stmt.LetStatement "a" (Expr.IntegerLiteral 5)] 0 store0 "a"
      (Expr.IntegerLiteral 5) rfl rfl).1⟩

end Monkey
